import Mathlib

/-!
Verification of the `DataProcessor` class from `src/t4.cpp`.

The class owns a private `std::vector<int> data` (the store) and exposes
three methods: `processValue` (a pure integer transform selected by a mode
string), `validateData` (a pure boolean check over a caller-supplied
sequence), and `addData` (a guarded append to the store).

The shallow embedding represents machine `int` by `Int` (every arithmetic
operation in the source occurs only on inputs bounded well below any
overflow threshold: `input * 2 + 5` only for `0 < input < 100`,
`input * 3` only for `0 < input < 50`, so two's-complement wraparound is
unreachable and `Int` is faithful), `std::vector<int>` by `List Int`, and
`std::string` by `String`.
-/

/-- Embedding of `DataProcessor::processValue` (src/t4.cpp lines 12-35).
The nested conditionals are transcribed branch for branch; the `"triple"`
branch with `input >= 50` falls through to the final `return 0`. -/
def processValue (input : Int) (mode : String) : Int :=
  if input > 0 then
    if mode = "double" then
      if input < 100 then
        if input % 2 = 0 then
          if input > 10 then input * 2 + 5
          else input * 2
        else input * 2 - 1
      else 200
    else if mode = "triple" then
      if input < 50 then input * 3
      else 0
    else 0
  else 0

/-- Embedding of `DataProcessor::validateData` (src/t4.cpp lines 37-56).
The `allPositive` loop (break on the first element `<= 0`) is the
`List.all` of the negated loop condition. -/
def validateData (inputData : List Int) : Bool :=
  if inputData.isEmpty then false
  else if inputData.length > 0 then
    if inputData.length < 1000 then
      inputData.all (fun x => ! decide (x ≤ 0))
    else false
  else false

/-- Embedding of `DataProcessor::addData` (src/t4.cpp lines 58-66):
push the value onto the end of the store only when all three guards hold. -/
def addData (data : List Int) (value : Int) : List Int :=
  if value > 0 then
    if value < 10000 then
      if data.length < 100 then data ++ [value]
      else data
    else data
  else data

/-- `processValue` as a method on the store state: the C++ body never reads
or writes the member `data`, so the embedding threads the state through
unchanged and the result depends on the arguments alone. -/
def processValueM (self : List Int) (input : Int) (mode : String) :
    Int × List Int :=
  (processValue input mode, self)

/-- `validateData` as a method on the store state: the C++ body never reads
or writes the member `data` (it only reads its `const&` argument), so the
embedding threads the state through unchanged. -/
def validateDataM (self : List Int) (inputData : List Int) :
    Bool × List Int :=
  (validateData inputData, self)

/-- One call on a `DataProcessor` instance, for the reachability claim. -/
inductive Op where
  | add (value : Int) : Op
  | transform (input : Int) (mode : String) : Op
  | validate (values : List Int) : Op

/-- Effect of one call on the store: only `add` can change it. -/
def applyOp (s : List Int) : Op → List Int
  | Op.add v => addData s v
  | Op.transform i m => (processValueM s i m).2
  | Op.validate l => (validateDataM s l).2

/-- Store state reached from the empty store by a sequence of calls
(the constructor `DataProcessor()` leaves the vector empty). -/
def runOps (ops : List Op) : List Int := ops.foldl applyOp []

/-- C1: with `0 < input` and mode `"double"`, `processValue` returns 200
for `input ≥ 100`; otherwise `input*2 + 5` for even `input > 10`,
`input*2` for even `input ≤ 10`, and `input*2 - 1` for odd `input`. -/
theorem processValue_double_cases (input : Int) (hpos : 0 < input) :
    processValue input "double" =
      if 100 ≤ input then 200
      else if input % 2 = 0 then
        (if 10 < input then input * 2 + 5 else input * 2)
      else input * 2 - 1 := by
  unfold processValue
  split_ifs <;> first | omega | simp_all

theorem processValue_double_cases_witness :
    processValue 12 "double" = 29 := by
  have h := processValue_double_cases 12 (by decide)
  simpa using h

/-- C5: with `0 < input` and mode `"triple"`, `processValue` returns
`input*3` when `input < 50` and 0 when `input ≥ 50` (fall-through to the
default `return 0`). -/
theorem processValue_triple_cases (input : Int) (hpos : 0 < input) :
    processValue input "triple" =
      if input < 50 then input * 3 else 0 := by
  unfold processValue
  split_ifs <;> first | omega | simp_all

theorem processValue_triple_cases_witness :
    processValue 10 "triple" = 30 ∧ processValue 60 "triple" = 0 := by
  refine ⟨?_, ?_⟩
  · have h := processValue_triple_cases 10 (by decide)
    simpa using h
  · have h := processValue_triple_cases 60 (by decide)
    simpa using h

/-- C6: for every `input ≤ 0` and every mode string whatsoever,
`processValue` returns 0. -/
theorem processValue_nonpos (input : Int) (mode : String)
    (h : input ≤ 0) : processValue input mode = 0 := by
  unfold processValue
  split_ifs <;> omega

theorem processValue_nonpos_witness :
    processValue 0 "double" = 0 ∧ processValue (-5) "triple" = 0 :=
  ⟨processValue_nonpos 0 "double" (by decide),
   processValue_nonpos (-5) "triple" (by decide)⟩

/-- C7: for every input and every mode other than `"double"` and
`"triple"`, `processValue` returns 0, with no error signalled; the second
conjunct shows this 0 is indistinguishable from a legitimately computed 0
on a recognized mode. -/
theorem processValue_unrecognized_mode (input : Int) (mode : String)
    (hd : mode ≠ "double") (ht : mode ≠ "triple") :
    processValue input mode = 0 ∧ processValue 60 "triple" = 0 := by
  constructor
  · unfold processValue
    split_ifs <;> simp_all
  · decide

theorem processValue_unrecognized_mode_witness :
    processValue 5 "unknown" = 0 :=
  (processValue_unrecognized_mode 5 "unknown" (by decide) (by decide)).1

/-- C10: for every input integer and every mode string, the value returned
by `processValue` is non-negative. -/
theorem processValue_nonneg (input : Int) (mode : String) :
    0 ≤ processValue input mode := by
  unfold processValue
  split_ifs <;> omega

/-- C2: `validateData` returns true iff the sequence is non-empty, its
length is strictly less than 1000, and every element is strictly
positive. -/
theorem validateData_iff (inputData : List Int) :
    validateData inputData = true ↔
      inputData ≠ [] ∧ inputData.length < 1000 ∧ ∀ x ∈ inputData, 0 < x := by
  unfold validateData
  split_ifs with h1 h2 h3
  · simp_all [List.isEmpty_iff]
  · simp only [List.all_eq_true, Bool.not_eq_true', decide_eq_false_iff_not,
      not_le]
    simp_all [List.isEmpty_iff]
  · simp_all [List.isEmpty_iff]
  · simp_all [List.isEmpty_iff]

/-- Closed form of `addData`: the three nested guards collapse to one
conjunction. Shared helper for the append claims. -/
theorem addData_eq (data : List Int) (value : Int) :
    addData data value =
      if 0 < value ∧ value < 10000 ∧ data.length < 100
      then data ++ [value] else data := by
  unfold addData
  split_ifs <;> simp_all

/-- C3: `addData` pushes the value onto the end of the store exactly when
`0 < value`, `value < 10000` and the store holds fewer than 100 elements;
in every other case the store is returned unchanged (silent no-op). -/
theorem addData_spec (data : List Int) (value : Int) :
    addData data value =
      if 0 < value ∧ value < 10000 ∧ data.length < 100
      then data ++ [value] else data :=
  addData_eq data value

/-- The store invariant of the spec's data model. -/
def StoreInv (s : List Int) : Prop :=
  (∀ v ∈ s, 0 < v ∧ v < 10000) ∧ s.length ≤ 100

theorem addData_preserves_inv (s : List Int) (v : Int) (h : StoreInv s) :
    StoreInv (addData s v) := by
  obtain ⟨hmem, hlen⟩ := h
  rw [addData_eq]
  split_ifs with hc
  · refine ⟨?_, ?_⟩
    · intro x hx
      rcases List.mem_append.mp hx with hx | hx
      · exact hmem x hx
      · simp only [List.mem_singleton] at hx
        subst hx
        exact ⟨hc.1, hc.2.1⟩
    · simp only [List.length_append, List.length_singleton]
      omega
  · exact ⟨hmem, hlen⟩

theorem applyOp_preserves_inv (s : List Int) (op : Op) (h : StoreInv s) :
    StoreInv (applyOp s op) := by
  cases op with
  | add v => exact addData_preserves_inv s v h
  | transform i m => exact h
  | validate l => exact h

theorem foldl_applyOp_inv (ops : List Op) :
    ∀ s : List Int, StoreInv s → StoreInv (ops.foldl applyOp s) := by
  induction ops with
  | nil => intro s h; exact h
  | cons op ops ih =>
    intro s h
    exact ih (applyOp s op) (applyOp_preserves_inv s op h)

theorem applyOp_extends (s : List Int) (op : Op) :
    ∃ t, applyOp s op = s ++ t := by
  cases op with
  | add v =>
    show ∃ t, addData s v = s ++ t
    rw [addData_eq]
    split_ifs
    · exact ⟨[v], rfl⟩
    · exact ⟨[], by simp⟩
  | transform i m => exact ⟨[], by simp [applyOp, processValueM]⟩
  | validate l => exact ⟨[], by simp [applyOp, validateDataM]⟩

/-- C4: in every store state reachable from the empty store by any
sequence of calls, every stored value `v` satisfies `0 < v < 10000`, the
length never exceeds 100, and every single call leaves the previous
elements as an initial segment of the new state (the store never
shrinks). -/
theorem runOps_invariant (ops : List Op) :
    ((∀ v ∈ runOps ops, 0 < v ∧ v < 10000) ∧ (runOps ops).length ≤ 100) ∧
      ∀ (s : List Int) (op : Op), ∃ t, applyOp s op = s ++ t := by
  refine ⟨?_, applyOp_extends⟩
  have h := foldl_applyOp_inv ops [] ⟨by simp, by simp⟩
  exact h

theorem foldl_addData_take (vs : List Int) :
    ∀ s : List Int, s.length ≤ 100 → (∀ v ∈ vs, 0 < v ∧ v < 10000) →
      List.foldl addData s vs = s ++ vs.take (100 - s.length) := by
  induction vs with
  | nil => intro s _ _; simp
  | cons v vs ih =>
    intro s hs hvs
    have hv : 0 < v ∧ v < 10000 := hvs v (List.mem_cons_self v vs)
    have hvs' : ∀ x ∈ vs, 0 < x ∧ x < 10000 :=
      fun x hx => hvs x (List.mem_cons_of_mem v hx)
    by_cases hlen : s.length < 100
    · have hstep : addData s v = s ++ [v] := by
        rw [addData_eq]
        exact if_pos ⟨hv.1, hv.2, hlen⟩
      have hlen' : (s ++ [v]).length ≤ 100 := by
        simp only [List.length_append, List.length_singleton]
        omega
      simp only [List.foldl_cons, hstep, ih (s ++ [v]) hlen' hvs']
      have harith : 100 - s.length = (100 - (s ++ [v]).length) + 1 := by
        simp only [List.length_append, List.length_singleton]
        omega
      rw [harith, List.take_succ_cons, List.append_assoc]
      rfl
    · have hstep : addData s v = s := by
        rw [addData_eq]
        exact if_neg (by omega)
      have h100 : 100 - s.length = 0 := by omega
      simp only [List.foldl_cons, hstep, ih s hs hvs', h100, List.take_zero]

/-- C8: appending any 101 values each in `(0, 10000)` to the empty store
yields a store of length exactly 100, containing the first 100 of those
values in their original order. -/
theorem addData_101_capacity (vs : List Int) (hlen : vs.length = 101)
    (hin : ∀ v ∈ vs, 0 < v ∧ v < 10000) :
    List.foldl addData [] vs = vs.take 100 ∧
      (List.foldl addData [] vs).length = 100 := by
  have h := foldl_addData_take vs [] (by simp) hin
  simp only [List.length_nil, Nat.sub_zero, List.nil_append] at h
  refine ⟨h, ?_⟩
  rw [h, List.length_take, hlen]
  decide

theorem addData_101_capacity_witness :
    List.foldl addData [] (List.replicate 101 1) = List.replicate 100 1 := by
  have h := addData_101_capacity (List.replicate 101 1) (by simp)
    (by intro v hv; rw [List.eq_of_mem_replicate hv]; exact ⟨by norm_num, by norm_num⟩)
  rw [h.1, List.take_replicate]
  norm_num

/-- C9: `processValue` and `validateData` have no side effects: for every
store state the method call leaves the store unchanged, and the result is
a function of the arguments alone, the same in every store state. -/
theorem processValue_validateData_pure (s s' : List Int) (input : Int)
    (mode : String) (inputData : List Int) :
    (processValueM s input mode).2 = s ∧
      (validateDataM s inputData).2 = s ∧
      (processValueM s input mode).1 = (processValueM s' input mode).1 ∧
      (validateDataM s inputData).1 = (validateDataM s' inputData).1 :=
  ⟨rfl, rfl, rfl, rfl⟩
